import Mathlib

/-!
Verification development for the overnight batch/goal runner.

The TypeScript core is shallowly embedded below:
- `src/security.ts` : glob matching, sandbox containment and the allow/deny
  decision of the PreToolUse hook (`securityDecide`).
- `src/runner.ts`   : the per-job executor `runJob` (timeout retry, backoff,
  verification pass) and the checkpointed batch runner `runJobsWithState`.
- goal-runner       : `isConverging`, the iteration loop, the final gate loop.

The opaque external agent is modelled as an environment that supplies the
outcome of each call (a result string and session id, a timeout, or an
error).  Wall-clock timestamps and duration fields are outside the
embedding; the persisted checkpoints are modelled as the ordered list of
states passed to `saveState`.  Hash values produced by `taskHash` (sha256,
truncated) are abstracted as a function parameter `taskHash : String →
String`.  YAML parsing of agent output (the external `yaml` package) is
abstracted: the environment delivers the structured payload that
`parseIterationOutput` / `parseGateOutput` would produce.
-/

set_option autoImplicit false

namespace Overnight

/-! ## String helpers (JS `String.prototype.includes` on lower-cased text) -/

/-- Char-list version of `startsWith`. -/
def charsStartWith : List Char → List Char → Bool
  | _, [] => true
  | [], _ :: _ => false
  | a :: as, b :: bs => (a = b) && charsStartWith as bs

/-- Does `needle` occur as a contiguous run inside `hay`? -/
def charsInclude (needle : List Char) : List Char → Bool
  | [] => needle.isEmpty
  | h :: t => charsStartWith (h :: t) needle || charsInclude needle t

/-- JS `s.includes(pat)`. -/
def strIncludes (s pat : String) : Bool :=
  charsInclude pat.toList s.toList

/-- JS `s.toLowerCase()` (the texts involved are ASCII). -/
def jsToLower (s : String) : String :=
  ⟨s.toList.map Char.toLower⟩

/-- Prefix test on strings via their character lists. -/
def strStartsWith (s pat : String) : Bool :=
  charsStartWith s.toList pat.toList

/-! ## Data model (types.ts) -/

/-- SecurityConfig from types.ts. -/
structure SecurityConfig where
  sandbox_dir : Option String := none
  deny_patterns : Option (List String) := none
  max_turns : Option Nat := none
  audit_log : Option String := none
deriving DecidableEq, Repr

/-- JobConfig from types.ts (id / depends_on omitted: unused by the runner). -/
structure JobConfig where
  prompt : String
  working_dir : Option String := none
  timeout_seconds : Option Nat := none
  stall_timeout_seconds : Option Nat := none
  verify : Option Bool := none
  verify_prompt : Option String := none
  allowed_tools : Option (List String) := none
  retry_count : Option Nat := none
  retry_delay : Option Nat := none
  security : Option SecurityConfig := none
deriving DecidableEq, Repr

inductive JobStatus where
  | success
  | failed
  | timeout
  | stalled
  | verification_failed
deriving DecidableEq, Repr

/-- JobResult from types.ts; `duration_seconds` (wall clock) is outside the
embedding. -/
structure JobResult where
  task : String
  status : JobStatus
  result : Option String := none
  error : Option String := none
  verified : Bool
  retries : Nat
deriving DecidableEq, Repr

def DEFAULT_TIMEOUT : Nat := 300
def DEFAULT_RETRY_COUNT : Nat := 3
def DEFAULT_RETRY_DELAY : Nat := 5
def DEFAULT_VERIFY_PROMPT : String :=
  "Review what you just implemented. Check for correctness, completeness, and compile errors. Fix any issues you find."
def DEFAULT_MAX_ITERATIONS : Nat := 20
def DEFAULT_CONVERGENCE_THRESHOLD : Nat := 3

def DEFAULT_DENY_PATTERNS : List String :=
  ["**/.env",
   "**/.env.*",
   "**/.git/config",
   "**/credentials*",
   "**/*.key",
   "**/*.pem",
   "**/*.p12",
   "**/id_rsa*",
   "**/id_ed25519*",
   "**/.ssh/*",
   "**/.aws/*",
   "**/.npmrc",
   "**/.netrc"]

/-! ## Job executor (runner.ts, runJob)

Each SDK call (`runWithTimeout (collectResultWithProgress ...)`) is modelled
by one `AgentEvent` consumed from a list: the call either returns a result
(with the session id the stream established), hits the timeout race (a
session id may have been reported by the init callback before the timer
fired), or throws an error.  The error case carries no session id: the
outer error handler crashes before it could read one (see `runJobLoop`). -/

inductive AgentEvent where
  | ok (sessionId : Option String) (result : Option String)
  | timeout (sessionId : Option String)
  | err (msg : String)
deriving DecidableEq, Repr

/-- One SDK invocation as issued by runJob: the prompt text, the millisecond
bound handed to `runWithTimeout`, the session resumed, and whether this is
the verification pass. -/
structure AgentCall where
  prompt : String
  timeoutMs : Nat
  resume : Option String
  isVerify : Bool
deriving DecidableEq, Repr

/-- Observable behaviour of one `runJob` run: the returned JobResult
(`none` when runJob terminates exceptionally instead of returning — the
ReferenceError path described at `runJobLoop`), the SDK calls issued, and
the backoff sleeps (in seconds) performed. -/
structure JobTrace where
  outcome : Option JobResult
  calls : List AgentCall
  sleeps : List Nat
deriving DecidableEq, Repr

/-- isRetryableError from runner.ts. -/
def retryablePatterns : List String :=
  ["api", "timeout", "connection", "network", "rate limit",
   "503", "502", "500", "unavailable", "overloaded"]

def isRetryableError (msg : String) : Bool :=
  retryablePatterns.any (fun pattern => strIncludes (jsToLower msg) pattern)

def unfixableWords : List String :=
  ["cannot fix", "unable to", "blocked by", "requires manual"]

def continuePrompt : String :=
  "Continue where you left off. Complete the original task."

def verifySuffix : String :=
  " If you find any issues, fix them now. Only report issues you cannot fix."

/-- The retry loop of runJob (`for attempt = 0..retryCount`).  `timeoutMs`,
`retryCount`, `retryDelay` and `verifyPromptR` are the values resolved from
the config at the top of runJob.  The empty-events case corresponds to the
unreachable fall-through return at the end of the loop.

The non-timeout error handler (the outer catch) is NOT a working retry
path: on a retryable error with attempts remaining it sets
`retriesUsed = attempt + 1` and then evaluates `if (sessionId)`, but
`sessionId` is declared with `let` inside the try block and is not in
scope in that catch, so a ReferenceError escapes runJob before any backoff
sleep and no JobResult is returned (outcome `none`).  Timeouts are handled
by the inner catch, which does see `sessionId`, so the timeout retry path
works. -/
def runJobLoop (cfg : JobConfig) (timeoutMs retryCount retryDelay : Nat)
    (verifyPromptR : String) :
    List AgentEvent → Nat → Nat → Option String → JobTrace
  | [], _, retriesUsed, _ =>
      ⟨some ⟨cfg.prompt, .failed, none, some "Exhausted all retries", false, retriesUsed⟩, [], []⟩
  | ev :: rest, attempt, retriesUsed, resumeSessionId =>
    let prompt := match resumeSessionId with
      | some _ => continuePrompt
      | none => cfg.prompt
    let call : AgentCall := ⟨prompt, timeoutMs, resumeSessionId, false⟩
    match ev with
    | .timeout sid =>
      if attempt < retryCount then
        -- on timeout, keep the session id observed so far for the resume
        let resume2 := match sid with
          | some s => some s
          | none => resumeSessionId
        let delay := retryDelay * 2 ^ attempt
        let t := runJobLoop cfg timeoutMs retryCount retryDelay verifyPromptR
                   rest (attempt + 1) (attempt + 1) resume2
        ⟨t.outcome, call :: t.calls, delay :: t.sleeps⟩
      else
        ⟨some ⟨cfg.prompt, .timeout, none,
          some ("Timed out after " ++ toString (cfg.timeout_seconds.getD DEFAULT_TIMEOUT) ++ " seconds"),
          false, retriesUsed⟩, [call], []⟩
    | .err msg =>
      if isRetryableError msg && decide (attempt < retryCount) then
        -- the out-of-scope sessionId read: the ReferenceError escapes runJob
        ⟨none, [call], []⟩
      else
        ⟨some ⟨cfg.prompt, .failed, none, some msg, false, retriesUsed⟩, [call], []⟩
    | .ok sid res =>
      -- verification pass if enabled: `config.verify !== false && sessionId`
      if (cfg.verify != some false) && sid.isSome then
        match rest with
        | [] =>
            ⟨some ⟨cfg.prompt, .failed, none, some "Exhausted all retries", false, retriesUsed⟩,
             [call], []⟩
        | vev :: _ =>
          let vcall : AgentCall := ⟨verifyPromptR ++ verifySuffix, timeoutMs / 2, sid, true⟩
          match vev with
          | .ok _ vres =>
            let finalResult := match vres with
              | some r => some r
              | none => res
            let unfixable := match vres with
              | some v => unfixableWords.any (fun w => strIncludes (jsToLower v) w)
              | none => false
            if unfixable then
              ⟨some ⟨cfg.prompt, .verification_failed, finalResult,
                some ("Unfixable issues: " ++ vres.getD ""),
                false, retriesUsed⟩, [call, vcall], []⟩
            else
              ⟨some ⟨cfg.prompt, .success, finalResult, none,
                cfg.verify != some false, retriesUsed⟩, [call, vcall], []⟩
          | .timeout _ =>
            -- verification timed out: tolerated, fall through to success
            ⟨some ⟨cfg.prompt, .success, res, none,
              cfg.verify != some false, retriesUsed⟩, [call, vcall], []⟩
          | .err msg =>
            -- a non-timeout verification error is rethrown into the same
            -- outer catch: crash on the retryable branch, else failed
            if isRetryableError msg && decide (attempt < retryCount) then
              ⟨none, [call, vcall], []⟩
            else
              ⟨some ⟨cfg.prompt, .failed, none, some msg, false, retriesUsed⟩,
               [call, vcall], []⟩
      else
        ⟨some ⟨cfg.prompt, .success, res, none,
          cfg.verify != some false, retriesUsed⟩, [call], []⟩

/-- runJob from runner.ts: resolve defaults, then run the attempt loop. -/
def runJob (cfg : JobConfig) (events : List AgentEvent)
    (resumeSessionId : Option String) : JobTrace :=
  let timeoutMs := (cfg.timeout_seconds.getD DEFAULT_TIMEOUT) * 1000
  let retryCount := cfg.retry_count.getD DEFAULT_RETRY_COUNT
  let retryDelay := cfg.retry_delay.getD DEFAULT_RETRY_DELAY
  let verifyPromptR := cfg.verify_prompt.getD DEFAULT_VERIFY_PROMPT
  runJobLoop cfg timeoutMs retryCount retryDelay verifyPromptR
    events 0 0 resumeSessionId

/-! ## Checkpointed batch runner (runner.ts, runJobsWithState)

The checkpoint file content is a `RunState`; `saveState` writes are recorded
in order in the `writes` field of the trace.  The job executor is abstracted
as `exec : JobConfig → Option String → List String × JobResult`: given the
config and the resume hint, it reports zero or more session ids through the
`onSessionId` callback (first component, each one checkpointed) and then
returns the JobResult.  `taskHash` (sha256 of the prompt, truncated) is an
abstract function parameter. -/

/-- InProgressTask from types.ts (`startedAt` timestamp outside the embedding). -/
structure InProgressTask where
  hash : String
  prompt : String
  sessionId : Option String := none
deriving DecidableEq, Repr

/-- RunState from types.ts (`timestamp` outside the embedding). -/
structure RunState where
  completed : List (String × JobResult)
  inProgress : Option InProgressTask := none
deriving DecidableEq, Repr

/-- Lookup in the `completed` record (JS object keyed by hash). -/
def lookupKey (k : String) : List (String × JobResult) → Option JobResult
  | [] => none
  | (k2, v) :: t => if k2 = k then some v else lookupKey k t

/-- Assignment `completed[k] = v` on the JS object. -/
def insertKey (k : String) (v : JobResult) : List (String × JobResult) → List (String × JobResult)
  | [] => [(k, v)]
  | (k2, v2) :: t => if k2 = k then (k, v) :: t else (k2, v2) :: insertKey k v t

/-- The pending filter: configs whose content key is not yet completed. -/
def pendingOf (taskHash : String → String) (configs : List JobConfig)
    (completed : List (String × JobResult)) : List JobConfig :=
  configs.filter (fun c => (lookupKey (taskHash c.prompt) completed).isNone)

def freshRunState : RunState := ⟨[], none⟩

/-- Trace of one batch run: final state, every state passed to `saveState`
(in order), and the hashes of the jobs actually handed to the executor. -/
structure LoopResult where
  state : RunState
  writes : List RunState
  executed : List String
deriving DecidableEq, Repr

/-- The `while (true)` loop of runJobsWithState.  The loop is modelled with
an explicit iteration bound: each pass moves the first pending job into
`completed`, so the pending count strictly decreases and `configs.length`
passes always suffice (`runLoop_pending_done` below).  Per pass, in source
order: extract a resume hint if the checkpointed inProgress entry matches,
persist the inProgress marker, run the job (persisting each session id the
callback reports), then persist the result and clear inProgress. -/
def runLoop (taskHash : String → String)
    (exec : JobConfig → Option String → List String × JobResult)
    (configs : List JobConfig) : Nat → RunState → LoopResult
  | 0, state => ⟨state, [], []⟩
  | fuel + 1, state =>
    match pendingOf taskHash configs state.completed with
    | [] => ⟨state, [], []⟩
    | config :: _ =>
      let hash := taskHash config.prompt
      let resumeSessionId : Option String :=
        match state.inProgress with
        | some ip => if ip.hash = hash then ip.sessionId else none
        | none => none
      let s1 : RunState := ⟨state.completed, some ⟨hash, config.prompt, none⟩⟩
      let run := exec config resumeSessionId
      let sessionWrites : List RunState :=
        run.1.map (fun id => ⟨state.completed, some ⟨hash, config.prompt, some id⟩⟩)
      let s2 : RunState := ⟨insertKey hash run.2 state.completed, none⟩
      let rest := runLoop taskHash exec configs fuel s2
      ⟨rest.state, s1 :: (sessionWrites ++ s2 :: rest.writes), hash :: rest.executed⟩

/-- runJobsWithState from runner.ts, without mid-run config reloading
(`reloadConfigs` absent): run the loop from the loaded (or fresh) state,
then collect results in original input order. -/
def runJobsWithState (taskHash : String → String)
    (exec : JobConfig → Option String → List String × JobResult)
    (configs : List JobConfig) (state0 : RunState) :
    List JobResult × LoopResult :=
  let r := runLoop taskHash exec configs configs.length state0
  (configs.filterMap (fun c => lookupKey (taskHash c.prompt) r.state.completed), r)

/-! ## Goal mode (goal-runner, src/unnamed/part_002)

The structured agent replies are delivered pre-parsed by the environment
(`CallOut`): `parseIterationOutput` / `parseGateOutput` always produce a
record from any result string (falling back to a degraded record), so an
SDK call either throws (`fail`), yields no final result (`noResult`), or
yields a structured payload (`out`).  The YAML layer itself is the external
`yaml` package. -/

/-- GoalConfig from types.ts (prompt-only fields such as `defaults` do not
affect the modelled control flow). -/
structure GoalConfig where
  goal : String
  acceptance_criteria : Option (List String) := none
  verification_commands : Option (List String) := none
  constraints : Option (List String) := none
  max_iterations : Option Nat := none
  convergence_threshold : Option Nat := none
deriving DecidableEq, Repr

/-- IterationState from types.ts (`timestamp` outside the embedding). -/
structure IterationState where
  iteration : Nat
  completed_items : List String
  remaining_items : List String
  known_issues : List String
  files_modified : List String
  agent_done : Bool
deriving DecidableEq, Repr

structure GateCheck where
  name : String
  passed : Bool
  output : String
deriving DecidableEq, Repr

structure GateResult where
  passed : Bool
  checks : List GateCheck
  summary : String
  failures : List String
deriving DecidableEq, Repr

inductive GoalStatus where
  | running
  | gate_passed
  | gate_failed
  | stalled
  | max_iterations
deriving DecidableEq, Repr

/-- GoalRunState from types.ts (`timestamp` outside the embedding). -/
structure GoalRunState where
  goal : String
  iterations : List IterationState
  gate_results : List GateResult
  status : GoalStatus
deriving DecidableEq, Repr

def freshGoalState (g : GoalConfig) : GoalRunState :=
  ⟨g.goal, [], [], .running⟩

/-- The payload `parseIterationOutput` extracts from a build-agent reply
(the iteration number and timestamp are attached by the parser). -/
structure IterData where
  completed_items : List String
  remaining_items : List String
  known_issues : List String
  files_modified : List String
  agent_done : Bool
deriving DecidableEq, Repr

def mkIter (d : IterData) (iteration : Nat) : IterationState :=
  ⟨iteration, d.completed_items, d.remaining_items, d.known_issues,
   d.files_modified, d.agent_done⟩

/-- Outcome of one goal-runner SDK call, as seen after parsing. -/
inductive CallOut (α : Type) where
  | fail
  | noResult
  | out (a : α)
deriving DecidableEq, Repr

/-- JS `Array.prototype.slice` with a negative start, `l.slice(-t)`.  Note
`slice(-0)` is `slice(0)` and returns the whole array, hence the special
case at `t = 0`. -/
def sliceLast {α : Type} (l : List α) (t : Nat) : List α :=
  if t = 0 then l else l.drop (l.length - t)

/-- The scan `for i in 1..counts.length: if counts[i] < counts[i-1] return
true; return false` of isConverging. -/
def anyStep : List Nat → Bool
  | a :: b :: t => if b < a then true else anyStep (b :: t)
  | _ => false

/-- isConverging from the goal runner. -/
def isConverging (states : List IterationState) (threshold : Nat) : Bool :=
  if states.length < threshold then true
  else
    let recent := sliceLast states threshold
    let remainingCounts := recent.map (fun s => s.remaining_items.length)
    anyStep remainingCounts

/-- The convergence check exactly as the specification words it: with fewer
than `threshold` prior records continue; otherwise continue iff some
consecutive pair among the last `threshold` remaining-item counts strictly
decreases (the last `t` elements of `l` being `l.drop (l.length - t)`). -/
def specConverging (states : List IterationState) (threshold : Nat) : Bool :=
  if states.length < threshold then true
  else
    let counts := (states.map (fun s => s.remaining_items.length)).drop
      (states.length - threshold)
    (counts.zip counts.tail).any (fun p => p.2 < p.1)

/-- The `for iteration = startIteration..maxIterations` loop of runGoal.
Arguments: remaining loop passes, current iteration number, index of the
next environment event, current state.  Returns the state together with the
next event index (so that issuing no further call is observable).  Branches,
in source order: convergence check (stall before the call is issued), the
SDK call (errors and missing results skip to the next iteration), parse,
persist, append, and the agent_done break. -/
def goalIterLoop (iterEnv : Nat → CallOut IterData) (threshold : Nat) :
    Nat → Nat → Nat → GoalRunState → GoalRunState × Nat
  | 0, _, callIdx, st => (st, callIdx)
  | fuel + 1, iteration, callIdx, st =>
    if isConverging st.iterations threshold = false then
      ({ st with status := .stalled }, callIdx)
    else
      match iterEnv callIdx with
      | .fail => goalIterLoop iterEnv threshold fuel (iteration + 1) (callIdx + 1) st
      | .noResult => goalIterLoop iterEnv threshold fuel (iteration + 1) (callIdx + 1) st
      | .out d =>
        let iterState := mkIter d iteration
        let st2 := { st with iterations := st.iterations ++ [iterState] }
        if iterState.agent_done then (st2, callIdx + 1)
        else goalIterLoop iterEnv threshold fuel (iteration + 1) (callIdx + 1) st2

def maxGateAttempts : Nat := 3

/-- The final-gate loop of runGoal (`for gateAttempt = 1..maxGateAttempts`).
`gateEnv` / `fixEnv` deliver the parsed outcome of the gate call and of the
fix call of a given attempt.  A gate call that throws or returns nothing
consumes the attempt; a parsed verdict is pushed onto `gate_results`; a pass
stops with gate_passed; a failure with attempts remaining runs one fix
iteration (appended to the history only when the fix call yields output)
and retries; a failure on the last attempt sets gate_failed. -/
def gateLoop (gateEnv : Nat → CallOut GateResult) (fixEnv : Nat → CallOut IterData) :
    Nat → Nat → GoalRunState → GoalRunState
  | 0, _, st => st
  | fuel + 1, gateAttempt, st =>
    match gateEnv gateAttempt with
    | .fail => gateLoop gateEnv fixEnv fuel (gateAttempt + 1) st
    | .noResult => gateLoop gateEnv fixEnv fuel (gateAttempt + 1) st
    | .out gateResult =>
      let st1 := { st with gate_results := st.gate_results ++ [gateResult] }
      if gateResult.passed then
        { st1 with status := .gate_passed }
      else
        if gateAttempt < maxGateAttempts then
          let fixIteration := st1.iterations.length + 1
          let st2 := match fixEnv gateAttempt with
            | .out d => { st1 with iterations := st1.iterations ++ [mkIter d fixIteration] }
            | _ => st1
          gateLoop gateEnv fixEnv fuel (gateAttempt + 1) st2
        else
          { st1 with status := .gate_failed }

/-- runGoal from the goal runner: iteration loop, then (still running) the
final gate, then the max-iterations check (`!lastState?.agent_done`, which
is true when there is no last iteration). -/
def runGoal (goal : GoalConfig) (iterEnv : Nat → CallOut IterData)
    (gateEnv : Nat → CallOut GateResult) (fixEnv : Nat → CallOut IterData)
    (st0 : GoalRunState) : GoalRunState :=
  let maxIterations := goal.max_iterations.getD DEFAULT_MAX_ITERATIONS
  let convergenceThreshold := goal.convergence_threshold.getD DEFAULT_CONVERGENCE_THRESHOLD
  let startIteration := st0.iterations.length + 1
  let st1 := (goalIterLoop iterEnv convergenceThreshold
      (maxIterations + 1 - startIteration) startIteration 0 st0).1
  let st2 := if st1.status = .running then gateLoop gateEnv fixEnv maxGateAttempts 1 st1 else st1
  if st2.status = .running then
    if (st2.iterations.getLast?.map (fun s => s.agent_done)).getD false = false then
      { st2 with status := .max_iterations }
    else st2
  else st2

/-! ## Security policy engine (security.ts) -/

/-- Interpreter for the regex the glob translation produces: every
character is literal (dots are escaped) except `**` (becoming `.*`) and `*`
(becoming `[^/]*`), both replaced greedily left to right.  `globMatchF pat
s` decides whether the regex derived from `pat` matches the whole of `s`.
The fuel only serves totality: every recursive call shortens `pat ++ s`, so
`pat.length + s.length + 1` suffices (see `globMatch`). -/
def globMatchF : Nat → List Char → List Char → Bool
  | 0, _, _ => false
  | _ + 1, [], s => s.isEmpty
  | fuel + 1, '*' :: '*' :: p, s =>
      globMatchF fuel p s ||
        (match s with
         | [] => false
         | _ :: t => globMatchF fuel ('*' :: '*' :: p) t)
  | fuel + 1, '*' :: p, s =>
      globMatchF fuel p s ||
        (match s with
         | [] => false
         | c :: t => if c = '/' then false else globMatchF fuel ('*' :: p) t)
  | fuel + 1, c :: p, s =>
      match s with
      | [] => false
      | d :: t => (d = c) && globMatchF fuel p t

def globMatch (p s : List Char) : Bool :=
  globMatchF (p.length + s.length + 1) p s

/-- Start positions `(^|/)` allows: the whole string, and every suffix that
follows a separator. -/
def tailsAfterSlash : List Char → List (List Char)
  | [] => []
  | c :: t => (if c = '/' then [t] else []) ++ tailsAfterSlash t

/-- All suffixes, for a rooted pattern (its regex gets no start anchor, only
the trailing `$`). -/
def allSuffixes : List Char → List (List Char)
  | [] => [[]]
  | c :: t => (c :: t) :: allSuffixes t

/-- matchesPattern from security.ts: normalize separators, translate the
glob, anchor at the end, and let it start at the beginning or after any
separator unless the pattern is rooted. -/
def matchesPattern (filePath : String) (pattern : String) : Bool :=
  let normalizedPath := filePath.toList.map (fun c => if c = '\\' then '/' else c)
  let conv := pattern.toList
  let starts :=
    if strStartsWith pattern "/" then allSuffixes normalizedPath
    else normalizedPath :: tailsAfterSlash normalizedPath
  starts.any (fun s => globMatch conv s)

/-- isPathDenied from security.ts: the first configured pattern that
matches, if any. -/
def isPathDenied (filePath : String) (denyPatterns : List String) : Option String :=
  denyPatterns.find? (fun pattern => matchesPattern filePath pattern)

/-- Split a path string into segments, dropping empty and `.` segments. -/
def splitSegs (p : String) : List String :=
  ((p.toList.splitOn '/').map (fun cs => (⟨cs⟩ : String))).filter
    (fun s => s != "" && s != ".")

/-- Resolution of `..` segments left to right (at the root, `..` stays at
the root), as `path.resolve` normalizes. -/
def normSegs (segs : List String) : List String :=
  segs.foldl (fun acc seg => if seg = ".." then acc.dropLast else acc ++ [seg]) []

/-- `path.resolve(process.cwd(), p)` with the working directory given as a
normalized absolute segment list. -/
def resolveAbs (cwd : List String) (p : String) : List String :=
  if strStartsWith p "/" then normSegs (splitSegs p)
  else normSegs (cwd ++ splitSegs p)

/-- Drop the common leading segments of two absolute paths. -/
def dropCommon : List String → List String → List String × List String
  | a :: as, b :: bs => if a = b then dropCommon as bs else (a :: as, b :: bs)
  | as, bs => (as, bs)

/-- `path.relative` on two absolute segment lists (posix). -/
def jsRelative (fromSegs toSegs : List String) : String :=
  let rest := dropCommon fromSegs toSegs
  String.intercalate "/" (List.replicate rest.1.length ".." ++ rest.2)

/-- isPathWithinSandbox from security.ts. -/
def isPathWithinSandbox (cwd : List String) (filePath sandboxDir : String) : Bool :=
  let absolutePath := resolveAbs cwd filePath
  let absoluteSandbox := resolveAbs cwd sandboxDir
  let relativePath := jsRelative absoluteSandbox absolutePath
  !(strStartsWith relativePath "..") && !(strStartsWith relativePath "/")

inductive Decision where
  | allow
  | deny (reason : String)
deriving DecidableEq, Repr

/-- The PreToolUse decision of createSecurityHooks for a file-touching tool
call carrying `filePath`: sandbox containment first, then the deny
patterns, else allow. -/
def securityDecide (cwd : List String) (config : SecurityConfig)
    (filePath : String) : Decision :=
  let denyPatterns := config.deny_patterns.getD DEFAULT_DENY_PATTERNS
  let sandboxOk := match config.sandbox_dir with
    | some sandboxDir => isPathWithinSandbox cwd filePath sandboxDir
    | none => true
  if !sandboxOk then
    .deny ("Path \"" ++ filePath ++ "\" is outside sandbox directory \"" ++
      config.sandbox_dir.getD "" ++ "\"")
  else
    match isPathDenied filePath denyPatterns with
    | some pattern => .deny ("Path \"" ++ filePath ++ "\" matches deny pattern \"" ++ pattern ++ "\"")
    | none => .allow

/-! ## Concrete instances used by witnesses and counterexamples -/

def cfgJob : JobConfig := { prompt := "do the thing" }

def hashW : String → String := fun s => s

def execW : JobConfig → Option String → List String × JobResult :=
  fun c _ => (["sess1"], ⟨c.prompt, .success, some "r", none, true, 0⟩)

def cfgW1 : JobConfig := { prompt := "a" }

def cfgW2 : JobConfig := { prompt := "b" }

def wW : RunState := ⟨[], some ⟨"a", "a", none⟩⟩

def resW : JobResult := ⟨"a", .success, some "r", none, true, 0⟩

def wWb : RunState := ⟨[("a", resW)], some ⟨"b", "b", none⟩⟩

def iterNotDone : IterData := ⟨[], ["x"], [], [], false⟩

def gC4 : GoalConfig := { goal := "g", max_iterations := some 1 }

def iterEnvC4 : Nat → CallOut IterData := fun _ => .out iterNotDone

def gatePassResult : GateResult := ⟨true, [], "ok", []⟩

def gateEnvPass : Nat → CallOut GateResult := fun _ => .out gatePassResult

def fixEnvNone : Nat → CallOut IterData := fun _ => .noResult

def dFix : IterData := ⟨["fixed the build"], ["still left"], [], [], false⟩

def fixEnvOut : Nat → CallOut IterData := fun _ => .out dFix

def iterWithRemaining (n : Nat) : IterationState :=
  ⟨0, [], List.replicate n "item", [], [], false⟩

def grW (k : Nat) : GateResult := ⟨false, [], "broken", ["failure " ++ toString k]⟩

def fdW (k : Nat) : IterData := ⟨["fixed " ++ toString k], [], [], [], true⟩

def gateEnvC6 : Nat → CallOut GateResult := fun k => .out (grW k)

def gateEnvMixed : Nat → CallOut GateResult := fun k =>
  if k = 1 then .out (grW 1) else if k = 2 then .fail else .noResult

def fixEnvC6 : Nat → CallOut IterData := fun k => .out (fdW k)

def stC6 : GoalRunState := ⟨"g", [iterWithRemaining 3], [], .running⟩

def secSandboxCfg : SecurityConfig := { sandbox_dir := some "." }

def cwdW : List String := ["home", "user"]

/-! ## Theorems -/

/-- C7 (evaluation of the code at the failing input): a retryable error
with attempts remaining does not back off and retry — the outer catch reads
the out-of-scope `sessionId`, so the ReferenceError escapes runJob after
that single call, with no sleep and no JobResult — while an error not
matching the keyword set does return status failed immediately with the
error message, one call and no backoff. -/
theorem retry_crash_on_retryable_error :
    isRetryableError "network down" = true
    ∧ (runJob cfgJob [AgentEvent.err "network down", AgentEvent.ok none (some "done")] none).outcome
        = none
    ∧ (runJob cfgJob [AgentEvent.err "network down", AgentEvent.ok none (some "done")] none).calls.length
        = 1
    ∧ (runJob cfgJob [AgentEvent.err "network down", AgentEvent.ok none (some "done")] none).sleeps
        = []
    ∧ isRetryableError "invalid input" = false
    ∧ (runJob cfgJob [AgentEvent.err "invalid input"] none).outcome
        = some ⟨"do the thing", .failed, none, some "invalid input", false, 0⟩
    ∧ (runJob cfgJob [AgentEvent.err "invalid input"] none).calls.length = 1
    ∧ (runJob cfgJob [AgentEvent.err "invalid input"] none).sleeps = [] := by
  decide

/-- C8: on a successful primary pass with verify not false and a session id
established, runJob issues a verification call bounded by half the timeout;
a reply containing an unfixable-marker phrase yields verification_failed,
while a verification timeout is tolerated and the job returns success with
the primary result and no further call. -/
theorem verification_pass_behaviour (cfg : JobConfig) (sid res vres : String)
    (vsid tsid : Option String)
    (hv : (cfg.verify != some false) = true)
    (hunfix : unfixableWords.any (fun w => strIncludes (jsToLower vres) w) = true) :
    ((runJob cfg [AgentEvent.ok (some sid) (some res), AgentEvent.ok vsid (some vres)] none).calls.length = 2
      ∧ ((runJob cfg [AgentEvent.ok (some sid) (some res), AgentEvent.ok vsid (some vres)] none).calls.getD 1 ⟨"", 0, none, false⟩).isVerify = true
      ∧ ((runJob cfg [AgentEvent.ok (some sid) (some res), AgentEvent.ok vsid (some vres)] none).calls.getD 1 ⟨"", 0, none, false⟩).timeoutMs
          = (cfg.timeout_seconds.getD DEFAULT_TIMEOUT) * 1000 / 2
      ∧ ((runJob cfg [AgentEvent.ok (some sid) (some res), AgentEvent.ok vsid (some vres)] none).calls.getD 1 ⟨"", 0, none, false⟩).resume = some sid
      ∧ ((runJob cfg [AgentEvent.ok (some sid) (some res), AgentEvent.ok vsid (some vres)] none).outcome.map
          (fun r => r.status)) = some .verification_failed)
    ∧ (((runJob cfg [AgentEvent.ok (some sid) (some res), AgentEvent.timeout tsid] none).outcome.map
          (fun r => r.status)) = some .success
      ∧ ((runJob cfg [AgentEvent.ok (some sid) (some res), AgentEvent.timeout tsid] none).outcome.map
          (fun r => r.result)) = some (some res)
      ∧ (runJob cfg [AgentEvent.ok (some sid) (some res), AgentEvent.timeout tsid] none).calls.length = 2) := by
  refine ⟨?_, ?_⟩ <;> simp [runJob, runJobLoop, hv, hunfix]

/-- C8 witness: a concrete job whose verification reply says it cannot fix
an issue ends verification_failed; one whose verification times out ends
success. -/
theorem verification_pass_behaviour_witness :
    ((runJob cfgJob [AgentEvent.ok (some "sess1") (some "ok"),
        AgentEvent.ok none (some "I cannot fix the flaky test")] none).outcome.map
      (fun r => r.status)) = some .verification_failed
    ∧ ((runJob cfgJob [AgentEvent.ok (some "sess1") (some "ok"),
        AgentEvent.timeout none] none).outcome.map
      (fun r => r.status)) = some .success := by
  have h := verification_pass_behaviour cfgJob "sess1" "ok" "I cannot fix the flaky test"
    none none (by decide) (by decide)
  exact ⟨h.1.2.2.2.2, h.2.1⟩

/-- Every JobResult the attempt loop returns with status success has
`verified` equal to `config.verify !== false`, regardless of whether a
verification call ran. -/
theorem runJobLoop_success_verified (cfg : JobConfig) (timeoutMs retryCount retryDelay : Nat)
    (verifyPromptR : String) :
    ∀ (events : List AgentEvent) (attempt ru : Nat) (resume : Option String)
      (r : JobResult),
      (runJobLoop cfg timeoutMs retryCount retryDelay verifyPromptR
          events attempt ru resume).outcome = some r →
      r.status = .success →
      r.verified = (cfg.verify != some false) := by
  intro events
  induction events with
  | nil =>
    intro attempt ru resume r hr hs
    simp only [runJobLoop, Option.some.injEq] at hr
    subst hr
    simp at hs
  | cons ev rest ih =>
    intro attempt ru resume r
    match ev with
    | .timeout sid =>
      simp only [runJobLoop]
      split
      · intro hr hs
        exact ih _ _ _ r hr hs
      · intro hr hs
        simp only [Option.some.injEq] at hr
        subst hr
        simp at hs
    | .err msg =>
      simp only [runJobLoop]
      split
      · intro hr
        exact absurd hr (by simp)
      · intro hr hs
        simp only [Option.some.injEq] at hr
        subst hr
        simp at hs
    | .ok sid res =>
      match rest with
      | [] =>
        simp only [runJobLoop]
        split
        · intro hr hs
          simp only [Option.some.injEq] at hr
          subst hr
          simp at hs
        · intro hr _
          simp only [Option.some.injEq] at hr
          subst hr
          rfl
      | vev :: rest2 =>
        match vev with
        | .ok vsid vres =>
          simp only [runJobLoop]
          split
          · split
            · intro hr hs
              simp only [Option.some.injEq] at hr
              subst hr
              simp at hs
            · intro hr _
              simp only [Option.some.injEq] at hr
              subst hr
              rfl
          · intro hr _
            simp only [Option.some.injEq] at hr
            subst hr
            rfl
        | .timeout tsid =>
          simp only [runJobLoop]
          split
          · intro hr _
            simp only [Option.some.injEq] at hr
            subst hr
            rfl
          · intro hr _
            simp only [Option.some.injEq] at hr
            subst hr
            rfl
        | .err msg2 =>
          simp only [runJobLoop]
          split
          · split
            · intro hr
              exact absurd hr (by simp)
            · intro hr hs
              simp only [Option.some.injEq] at hr
              subst hr
              simp at hs
          · intro hr _
            simp only [Option.some.injEq] at hr
            subst hr
            rfl

/-- C10: whenever runJob returns a JobOutcome with status success, its
verified field equals (verify not equal to false), even when no
verification call was issued or the verification call timed out. -/
theorem success_implies_verified_flag (cfg : JobConfig) (events : List AgentEvent)
    (resume : Option String) (r : JobResult)
    (hr : (runJob cfg events resume).outcome = some r)
    (hs : r.status = .success) :
    r.verified = (cfg.verify != some false) :=
  runJobLoop_success_verified cfg ((cfg.timeout_seconds.getD DEFAULT_TIMEOUT) * 1000)
    (cfg.retry_count.getD DEFAULT_RETRY_COUNT) (cfg.retry_delay.getD DEFAULT_RETRY_DELAY)
    (cfg.verify_prompt.getD DEFAULT_VERIFY_PROMPT) events 0 0 resume r hr hs

/-- C10 witness: a job that succeeds with no session id (so no verification
call is ever issued) still reports verified = true. -/
theorem success_implies_verified_flag_witness :
    (runJob cfgJob [AgentEvent.ok none (some "done")] none).outcome
      = some ⟨"do the thing", .success, some "done", none, true, 0⟩
    ∧ (⟨"do the thing", .success, some "done", none, true, 0⟩ : JobResult).verified
        = (cfgJob.verify != some false)
    ∧ (cfgJob.verify != some false) = true := by
  refine ⟨by decide, ?_, by decide⟩
  exact success_implies_verified_flag cfgJob [AgentEvent.ok none (some "done")] none
    ⟨"do the thing", .success, some "done", none, true, 0⟩ (by decide) (by decide)

/-- C9 (evaluation of the code on the three cases of the spec): a path
resolving outside the sandbox is denied with the sandbox reason, and
"src/app.ts" is allowed; but ".env" under the default deny patterns is
ALLOWED — no default pattern matches it, because the regex produced for a
`**/`-pattern demands a literal separator before the file name.  One
directory down, "sub/.env" is denied as intended. -/
theorem security_decide_cases :
    securityDecide cwdW secSandboxCfg "../outside/file"
        = .deny "Path \"../outside/file\" is outside sandbox directory \".\""
    ∧ securityDecide cwdW secSandboxCfg "src/app.ts" = .allow
    ∧ isPathDenied ".env" DEFAULT_DENY_PATTERNS = none
    ∧ securityDecide cwdW secSandboxCfg ".env" = .allow
    ∧ securityDecide cwdW ({} : SecurityConfig) ".env" = .allow
    ∧ matchesPattern "sub/.env" "**/.env" = true
    ∧ isPathDenied "sub/.env" DEFAULT_DENY_PATTERNS = some "**/.env" := by
  decide

/-- The hand-rolled scan of isConverging agrees with the any-over-pairs
formulation. -/
theorem anyStep_eq_any_zip (l : List Nat) :
    anyStep l = (l.zip l.tail).any (fun p => p.2 < p.1) := by
  induction l with
  | nil => rfl
  | cons a t ih =>
    match t with
    | [] => rfl
    | b :: t2 =>
      simp only [anyStep, List.tail_cons, List.zip_cons_cons, List.any_cons] at ih ⊢
      by_cases h : b < a
      · simp [h]
      · simp [h, ih]

/-- For a positive threshold, isConverging computes exactly the check the
specification describes. -/
theorem isConverging_eq_spec (states : List IterationState) (threshold : Nat)
    (ht : 1 ≤ threshold) :
    isConverging states threshold = specConverging states threshold := by
  unfold isConverging specConverging
  by_cases h : states.length < threshold
  · simp [h]
  · simp only [h, if_false]
    rw [sliceLast, if_neg (by omega), anyStep_eq_any_zip, List.map_drop]

/-- C5 (amended: for convergenceThreshold ≥ 1): at the start of each
iteration, with fewer than threshold prior records the loop continues
unconditionally; otherwise it continues iff some consecutive pair among the
last threshold remaining-item counts strictly decreases; a failing check
transitions the run to stalled before the agent call is issued (the event
index is returned unchanged). -/
theorem convergence_check (threshold : Nat) (ht : 1 ≤ threshold) :
    (∀ states : List IterationState,
       isConverging states threshold = specConverging states threshold)
    ∧ (∀ (iterEnv : Nat → CallOut IterData) (fuel iteration callIdx : Nat)
         (st : GoalRunState),
         isConverging st.iterations threshold = false →
         goalIterLoop iterEnv threshold (fuel + 1) iteration callIdx st
           = ({ st with status := .stalled }, callIdx)) := by
  constructor
  · intro states
    exact isConverging_eq_spec states threshold ht
  · intro iterEnv fuel iteration callIdx st h
    simp [goalIterLoop, h]

/-- C5 witness: remaining counts [10,10,10] with threshold 3 fail the check
and stall the loop before a further call; [10,7,10] continue. -/
theorem convergence_check_witness :
    isConverging [iterWithRemaining 10, iterWithRemaining 10, iterWithRemaining 10] 3
      = specConverging [iterWithRemaining 10, iterWithRemaining 10, iterWithRemaining 10] 3
    ∧ isConverging [iterWithRemaining 10, iterWithRemaining 10, iterWithRemaining 10] 3 = false
    ∧ isConverging [iterWithRemaining 10, iterWithRemaining 7, iterWithRemaining 10] 3 = true
    ∧ goalIterLoop iterEnvC4 3 1 4 7
        ⟨"g", [iterWithRemaining 10, iterWithRemaining 10, iterWithRemaining 10], [], .running⟩
        = (⟨"g", [iterWithRemaining 10, iterWithRemaining 10, iterWithRemaining 10], [], .stalled⟩, 7) := by
  refine ⟨(convergence_check 3 (by decide)).1 _, by decide, by decide, ?_⟩
  exact (convergence_check 3 (by decide)).2 iterEnvC4 0 4 7 _ (by decide)

/-- C5 counterexample: with convergenceThreshold = 0 the claim prescribes
the empty window (no consecutive pair, hence a stall), but JS slice(-0)
returns the whole array, so on remaining counts [10, 7] the code continues. -/
theorem convergence_check_cex :
    specConverging [iterWithRemaining 10, iterWithRemaining 7] 0 = false
    ∧ isConverging [iterWithRemaining 10, iterWithRemaining 7] 0 = true := by
  decide

/-- If no record of the history self-reports done, the JS check
`!lastState?.agent_done` accepts (also for the empty history). -/
theorem all_not_done_getLast (l : List IterationState)
    (h : l.all (fun it => !it.agent_done) = true) :
    (l.getLast?.map (fun s => s.agent_done)).getD false = false := by
  cases hl : l.getLast? with
  | none => rfl
  | some x =>
    obtain ⟨hne, hx⟩ := List.mem_getLast?_eq_getLast (by rw [hl]; rfl)
    have hmem : x ∈ l := hx ▸ List.getLast_mem hne
    have := List.all_eq_true.mp h x hmem
    simp only [Bool.not_eq_eq_eq_not, Bool.not_true] at this
    simp [this]

/-- If every parsed gate verdict is failing, no parsed verdict occurs from
the attempt cap onwards, and every fix output is not agent_done, the gate
loop preserves the status and keeps the iteration history free of
self-reported done records (failing verdicts may still be recorded and fix
iterations appended). -/
theorem gateLoop_no_pass (gateEnv : Nat → CallOut GateResult)
    (fixEnv : Nat → CallOut IterData)
    (hnopass : ∀ k g, gateEnv k = CallOut.out g → g.passed = false)
    (hnolast : ∀ k, maxGateAttempts ≤ k →
        gateEnv k = CallOut.fail ∨ gateEnv k = CallOut.noResult)
    (hfix : ∀ k d, fixEnv k = CallOut.out d → d.agent_done = false) :
    ∀ (fuel attempt : Nat) (st : GoalRunState),
      (gateLoop gateEnv fixEnv fuel attempt st).status = st.status
      ∧ (st.iterations.all (fun it => !it.agent_done) = true →
          (gateLoop gateEnv fixEnv fuel attempt st).iterations.all
            (fun it => !it.agent_done) = true) := by
  intro fuel
  induction fuel with
  | zero => intro attempt st; exact ⟨rfl, fun h => h⟩
  | succ n ih =>
    intro attempt st
    cases hg : gateEnv attempt with
    | fail => simpa [gateLoop, hg] using ih (attempt + 1) st
    | noResult => simpa [gateLoop, hg] using ih (attempt + 1) st
    | out g =>
      have hgp : g.passed = false := hnopass attempt g hg
      by_cases hlt : attempt < maxGateAttempts
      · cases hf : fixEnv attempt with
        | out d =>
          have hd : d.agent_done = false := hfix attempt d hf
          simp only [gateLoop, hg, hgp, Bool.false_eq_true, if_false, hlt, if_true, hf]
          constructor
          · rw [(ih (attempt + 1) _).1]
          · intro h
            refine (ih (attempt + 1) _).2 ?_
            simp [mkIter, h, hd]
        | fail =>
          simp only [gateLoop, hg, hgp, Bool.false_eq_true, if_false, hlt, if_true, hf]
          constructor
          · rw [(ih (attempt + 1) _).1]
          · intro h
            refine (ih (attempt + 1) _).2 ?_
            simpa using h
        | noResult =>
          simp only [gateLoop, hg, hgp, Bool.false_eq_true, if_false, hlt, if_true, hf]
          constructor
          · rw [(ih (attempt + 1) _).1]
          · intro h
            refine (ih (attempt + 1) _).2 ?_
            simpa using h
      · rcases hnolast attempt (Nat.le_of_not_lt hlt) with h2 | h2 <;> simp [hg] at h2

/-- C4 (amended): completing all maxIterations iterations without any
self-reported done still proceeds to the final gate; when no gate attempt
yields a passing verdict, the final (third) attempt yields no parsed
verdict (the call throws or returns no output), and no appended fix
iteration self-reports done, the returned status is max_iterations — even
if failing parsed verdicts were recorded and fix iterations appended along
the way. -/
theorem max_iterations_after_exhaustion (goal : GoalConfig)
    (iterEnv : Nat → CallOut IterData) (gateEnv : Nat → CallOut GateResult)
    (fixEnv : Nat → CallOut IterData) (st0 : GoalRunState)
    (hnopass : ∀ k g, gateEnv k = CallOut.out g → g.passed = false)
    (hnolast : ∀ k, maxGateAttempts ≤ k →
        gateEnv k = CallOut.fail ∨ gateEnv k = CallOut.noResult)
    (hfix : ∀ k d, fixEnv k = CallOut.out d → d.agent_done = false)
    (hrun : (goalIterLoop iterEnv (goal.convergence_threshold.getD DEFAULT_CONVERGENCE_THRESHOLD)
        (goal.max_iterations.getD DEFAULT_MAX_ITERATIONS + 1 - (st0.iterations.length + 1))
        (st0.iterations.length + 1) 0 st0).1.status = .running)
    (hdone : (goalIterLoop iterEnv (goal.convergence_threshold.getD DEFAULT_CONVERGENCE_THRESHOLD)
        (goal.max_iterations.getD DEFAULT_MAX_ITERATIONS + 1 - (st0.iterations.length + 1))
        (st0.iterations.length + 1) 0 st0).1.iterations.all
        (fun it => !it.agent_done) = true) :
    (runGoal goal iterEnv gateEnv fixEnv st0).status = .max_iterations := by
  have hG := gateLoop_no_pass gateEnv fixEnv hnopass hnolast hfix maxGateAttempts 1
    (goalIterLoop iterEnv (goal.convergence_threshold.getD DEFAULT_CONVERGENCE_THRESHOLD)
      (goal.max_iterations.getD DEFAULT_MAX_ITERATIONS + 1 - (st0.iterations.length + 1))
      (st0.iterations.length + 1) 0 st0).1
  simp only [runGoal]
  rw [if_pos hrun, hG.1, if_pos hrun, if_pos (all_not_done_getLast _ (hG.2 hdone))]

/-- The mixed gate environment of the C4 witness never yields a passing
verdict: only attempt 1 yields a parsed verdict, and it fails. -/
theorem gateEnvMixed_nopass :
    ∀ k g, gateEnvMixed k = CallOut.out g → g.passed = false := by
  intro k g hk
  by_cases h1 : k = 1
  · subst h1
    simp [gateEnvMixed] at hk
    subst hk
    rfl
  · by_cases h2 : k = 2
    · subst h2
      simp [gateEnvMixed, h1] at hk
    · simp [gateEnvMixed, h1, h2] at hk

/-- The mixed gate environment yields no parsed verdict from the attempt
cap onwards. -/
theorem gateEnvMixed_nolast :
    ∀ k, maxGateAttempts ≤ k →
      gateEnvMixed k = CallOut.fail ∨ gateEnvMixed k = CallOut.noResult := by
  intro k hk
  unfold maxGateAttempts at hk
  unfold gateEnvMixed
  rw [if_neg (by omega), if_neg (by omega)]
  exact Or.inr rfl

/-- Every fix output of the C4 witness environment is not agent_done. -/
theorem fixEnvOut_not_done :
    ∀ k d, fixEnvOut k = CallOut.out d → d.agent_done = false := by
  intro k d hk
  injection hk with h
  subst h
  rfl

/-- C4 witness: one iteration without done; a failing parsed verdict at the
first gate attempt (its fix iteration appended), then a throwing and a
no-output attempt: the run ends max_iterations with a parsed verdict on
record. -/
theorem max_iterations_after_exhaustion_witness :
    (runGoal gC4 iterEnvC4 gateEnvMixed fixEnvOut (freshGoalState gC4)).status
      = .max_iterations
    ∧ (runGoal gC4 iterEnvC4 gateEnvMixed fixEnvOut (freshGoalState gC4)).gate_results
      = [grW 1] := by
  refine ⟨?_, by decide⟩
  exact max_iterations_after_exhaustion gC4 iterEnvC4 gateEnvMixed fixEnvOut
    (freshGoalState gC4) gateEnvMixed_nopass gateEnvMixed_nolast fixEnvOut_not_done
    (by decide) (by decide)

/-- C4 counterexample: maxIterations = 1 exhausted without agent_done, yet a
passing gate verdict makes the returned status gate_passed, not
max_iterations — the gate runs even after iteration exhaustion. -/
theorem runGoal_gate_overrides_max_iterations_cex :
    (runGoal gC4 iterEnvC4 gateEnvPass fixEnvNone (freshGoalState gC4)).iterations.length = 1
    ∧ (runGoal gC4 iterEnvC4 gateEnvPass fixEnvNone (freshGoalState gC4)).iterations.all
        (fun it => !it.agent_done) = true
    ∧ (runGoal gC4 iterEnvC4 gateEnvPass fixEnvNone (freshGoalState gC4)).status = .gate_passed
    ∧ (runGoal gC4 iterEnvC4 gateEnvPass fixEnvNone (freshGoalState gC4)).status
        ≠ .max_iterations := by
  decide

/-- C6: with parsed verdicts throughout, the gate runs at most 3 attempts: a
passing verdict stops at gate_passed; each failing verdict with attempts
remaining appends exactly one fix iteration (numbered after the existing
history) before the next attempt; a third failing verdict sets gate_failed
with no further fix iteration. -/
theorem gate_protocol (gateEnv : Nat → CallOut GateResult)
    (fixEnv : Nat → CallOut IterData) (st : GoalRunState)
    (g1 g2 g3 : GateResult) (d1 d2 : IterData)
    (hg1 : gateEnv 1 = .out g1) (hg2 : gateEnv 2 = .out g2) (hg3 : gateEnv 3 = .out g3)
    (hf1 : fixEnv 1 = .out d1) (hf2 : fixEnv 2 = .out d2) :
    (g1.passed = true →
      gateLoop gateEnv fixEnv maxGateAttempts 1 st
        = { st with gate_results := st.gate_results ++ [g1], status := .gate_passed })
    ∧ (g1.passed = false → g2.passed = true →
      gateLoop gateEnv fixEnv maxGateAttempts 1 st
        = { st with
            gate_results := st.gate_results ++ [g1, g2],
            iterations := st.iterations ++ [mkIter d1 (st.iterations.length + 1)],
            status := .gate_passed })
    ∧ (g1.passed = false → g2.passed = false → g3.passed = false →
      gateLoop gateEnv fixEnv maxGateAttempts 1 st
        = { st with
            gate_results := st.gate_results ++ [g1, g2, g3],
            iterations := st.iterations ++ [mkIter d1 (st.iterations.length + 1),
              mkIter d2 (st.iterations.length + 2)],
            status := .gate_failed }) := by
  refine ⟨?_, ?_, ?_⟩
  · intro h1
    simp [gateLoop, maxGateAttempts, hg1, h1]
  · intro h1 h2
    simp [gateLoop, maxGateAttempts, hg1, hg2, hf1, h1, h2]
  · intro h1 h2 h3
    simp [gateLoop, maxGateAttempts, hg1, hg2, hg3, hf1, hf2, h1, h2, h3]

/-- C6 witness: three concrete failing verdicts append the two fix
iterations and end gate_failed after exactly three attempts. -/
theorem gate_protocol_witness :
    gateLoop gateEnvC6 fixEnvC6 maxGateAttempts 1 stC6
      = ⟨"g", [iterWithRemaining 3, mkIter (fdW 1) 2, mkIter (fdW 2) 3],
         [grW 1, grW 2, grW 3], .gate_failed⟩ := by
  have h := gate_protocol gateEnvC6 fixEnvC6 stC6 (grW 1) (grW 2) (grW 3)
    (fdW 1) (fdW 2) rfl rfl rfl rfl rfl
  exact (h.2.2 (by decide) (by decide) (by decide)).trans (by decide)

/-! ## Batch-runner lemmas (C1, C2, C3) -/

/-- Lookup after a JS object assignment. -/
theorem lookupKey_insertKey (k k2 : String) (v : JobResult) :
    ∀ m : List (String × JobResult),
      lookupKey k2 (insertKey k v m) = if k2 = k then some v else lookupKey k2 m := by
  intro m
  induction m with
  | nil =>
    by_cases h : k2 = k
    · subst h
      simp [insertKey, lookupKey]
    · simp [insertKey, lookupKey, h, Ne.symm h]
  | cons p t ih =>
    obtain ⟨k3, v3⟩ := p
    by_cases h1 : k3 = k
    · subst h1
      by_cases h2 : k2 = k3
      · subst h2
        simp [insertKey, lookupKey]
      · simp [insertKey, lookupKey, h2, Ne.symm h2]
    · by_cases h2 : k2 = k3
      · subst h2
        simp [insertKey, lookupKey, h1, Ne.symm h1]
      · simp [insertKey, lookupKey, h1, h2, Ne.symm h2, ih]

theorem lookupKey_insertKey_self (k : String) (v : JobResult)
    (m : List (String × JobResult)) :
    lookupKey k (insertKey k v m) = some v := by
  simp [lookupKey_insertKey]

theorem lookupKey_insertKey_none (k k2 : String) (v : JobResult)
    (m : List (String × JobResult))
    (h : lookupKey k2 (insertKey k v m) = none) :
    lookupKey k2 m = none := by
  rw [lookupKey_insertKey] at h
  by_cases hh : k2 = k
  · rw [if_pos hh] at h
    exact Option.noConfusion h
  · rwa [if_neg hh] at h

/-- Filtering with a stronger predicate keeps at most as many elements. -/
theorem length_filter_le_of_imp {α : Type} (p q : α → Bool) :
    ∀ l : List α, (∀ x ∈ l, q x = true → p x = true) →
      (l.filter q).length ≤ (l.filter p).length := by
  intro l
  induction l with
  | nil => intro _; simp
  | cons a t ih =>
    intro himp
    have ih2 := ih (fun x hx => himp x (List.mem_cons_of_mem a hx))
    by_cases hq : q a = true
    · have hp := himp a (List.mem_cons_self a t) hq
      rw [List.filter_cons_of_pos hp, List.filter_cons_of_pos hq]
      simpa using ih2
    · rw [List.filter_cons_of_neg hq]
      by_cases hp : p a = true
      · rw [List.filter_cons_of_pos hp]
        simp only [List.length_cons]
        omega
      · rw [List.filter_cons_of_neg hp]
        exact ih2

/-- Filtering with a strictly stronger predicate (witnessed at a member)
keeps strictly fewer elements. -/
theorem length_filter_lt_of_mem {α : Type} (p q : α → Bool) :
    ∀ l : List α, (∀ x ∈ l, q x = true → p x = true) →
      ∀ x ∈ l, p x = true → q x = false →
      (l.filter q).length < (l.filter p).length := by
  intro l
  induction l with
  | nil => intro _ x hx; cases hx
  | cons a t ih =>
    intro himp x hx hp hq
    have himp2 : ∀ y ∈ t, q y = true → p y = true :=
      fun y hy => himp y (List.mem_cons_of_mem a hy)
    rcases List.mem_cons.mp hx with rfl | hx2
    · rw [List.filter_cons_of_pos hp, List.filter_cons_of_neg (by simp [hq])]
      have := length_filter_le_of_imp p q t himp2
      simp only [List.length_cons]
      omega
    · have ihx := ih himp2 x hx2 hp hq
      by_cases hqa : q a = true
      · have hpa := himp a (List.mem_cons_self a t) hqa
        rw [List.filter_cons_of_pos hpa, List.filter_cons_of_pos hqa]
        simpa using ihx
      · rw [List.filter_cons_of_neg hqa]
        by_cases hpa : p a = true
        · rw [List.filter_cons_of_pos hpa]
          simp only [List.length_cons]
          omega
        · rw [List.filter_cons_of_neg hpa]
          exact ihx

/-- Completing the first pending job strictly shrinks the pending filter. -/
theorem pending_length_decrease (taskHash : String → String)
    (configs : List JobConfig) (m : List (String × JobResult))
    (config : JobConfig) (rest : List JobConfig)
    (hpend : pendingOf taskHash configs m = config :: rest)
    (v : JobResult) :
    (pendingOf taskHash configs (insertKey (taskHash config.prompt) v m)).length
      < (pendingOf taskHash configs m).length := by
  have hmem0 : config ∈ pendingOf taskHash configs m := by
    rw [hpend]; exact List.mem_cons_self _ _
  have hc := List.mem_filter.mp hmem0
  apply length_filter_lt_of_mem _ _ configs
  · intro x _ hq
    rw [Option.isNone_iff_eq_none] at hq ⊢
    exact lookupKey_insertKey_none _ _ _ _ hq
  · exact hc.1
  · exact hc.2
  · simp [lookupKey_insertKey_self]

/-- With fuel at least the pending count, the loop drains the pending list. -/
theorem runLoop_pending_done (taskHash : String → String)
    (exec : JobConfig → Option String → List String × JobResult)
    (configs : List JobConfig) :
    ∀ (fuel : Nat) (st : RunState),
      (pendingOf taskHash configs st.completed).length ≤ fuel →
      pendingOf taskHash configs
        (runLoop taskHash exec configs fuel st).state.completed = [] := by
  intro fuel
  induction fuel with
  | zero =>
    intro st h
    have h0 : pendingOf taskHash configs st.completed = [] :=
      List.length_eq_zero.mp (Nat.le_zero.mp h)
    simpa [runLoop] using h0
  | succ n ih =>
    intro st h
    cases hpend : pendingOf taskHash configs st.completed with
    | nil => simp only [runLoop, hpend]
    | cons config rest2 =>
      simp only [runLoop, hpend]
      refine ih _ ?_
      have hdec := pending_length_decrease taskHash configs st.completed config rest2 hpend
        (exec config (match st.inProgress with
          | some ip => if ip.hash = taskHash config.prompt then ip.sessionId else none
          | none => none)).2
      rw [hpend] at h hdec
      simp only [List.length_cons] at h hdec
      dsimp only
      omega

/-- With adequate fuel the loop result does not depend on the fuel. -/
theorem runLoop_fuel_eq (taskHash : String → String)
    (exec : JobConfig → Option String → List String × JobResult)
    (configs : List JobConfig) :
    ∀ (f g : Nat) (st : RunState),
      (pendingOf taskHash configs st.completed).length ≤ f →
      (pendingOf taskHash configs st.completed).length ≤ g →
      runLoop taskHash exec configs f st = runLoop taskHash exec configs g st := by
  intro f
  induction f with
  | zero =>
    intro g st hf hg
    have h0 : pendingOf taskHash configs st.completed = [] :=
      List.length_eq_zero.mp (Nat.le_zero.mp hf)
    cases g with
    | zero => rfl
    | succ m => simp [runLoop, h0]
  | succ n ih =>
    intro g st hf hg
    cases hpend : pendingOf taskHash configs st.completed with
    | nil =>
      cases g with
      | zero => simp [runLoop, hpend]
      | succ m => simp [runLoop, hpend]
    | cons config rest2 =>
      cases g with
      | zero =>
        rw [hpend] at hg
        simp at hg
      | succ m =>
        simp only [runLoop, hpend]
        have hdec := pending_length_decrease taskHash configs st.completed config rest2 hpend
          (exec config (match st.inProgress with
            | some ip => if ip.hash = taskHash config.prompt then ip.sessionId else none
            | none => none)).2
        rw [hpend] at hf hg hdec
        simp only [List.length_cons] at hf hg hdec
        rw [ih m _ (by dsimp only; omega) (by dsimp only; omega)]

/-- Given an executor whose outcome is independent of the resume hint, the
final completed map does not depend on the loaded inProgress marker. -/
theorem runLoop_completed_inProgress (taskHash : String → String)
    (exec : JobConfig → Option String → List String × JobResult)
    (configs : List JobConfig)
    (hExec : ∀ c s, (exec c s).2 = (exec c none).2) :
    ∀ (fuel : Nat) (m : List (String × JobResult)) (ip ip2 : Option InProgressTask),
      (runLoop taskHash exec configs fuel ⟨m, ip⟩).state.completed
        = (runLoop taskHash exec configs fuel ⟨m, ip2⟩).state.completed := by
  intro fuel
  cases fuel with
  | zero => intro m ip ip2; rfl
  | succ n =>
    intro m ip ip2
    cases hpend : pendingOf taskHash configs m with
    | nil => simp [runLoop, hpend]
    | cons config rest2 =>
      simp only [runLoop, hpend]
      simp only [hExec]

/-- Re-running the loop from any persisted checkpoint, with the standard
fuel, reproduces the final completed map of the original run. -/
theorem runLoop_writes_resume (taskHash : String → String)
    (exec : JobConfig → Option String → List String × JobResult)
    (configs : List JobConfig)
    (hExec : ∀ c s, (exec c s).2 = (exec c none).2) :
    ∀ (fuel : Nat) (st : RunState),
      (pendingOf taskHash configs st.completed).length ≤ fuel →
      ∀ w ∈ (runLoop taskHash exec configs fuel st).writes,
        (runLoop taskHash exec configs configs.length w).state.completed
          = (runLoop taskHash exec configs fuel st).state.completed := by
  intro fuel
  induction fuel with
  | zero => intro st h w hw; cases hw
  | succ n ih =>
    intro st h w hw
    cases hpend : pendingOf taskHash configs st.completed with
    | nil => simp [runLoop, hpend] at hw
    | cons config rest2 =>
      have hLfull : ∀ m2 : List (String × JobResult),
          (pendingOf taskHash configs m2).length ≤ configs.length :=
        fun m2 => List.length_filter_le _ _
      have hdec := pending_length_decrease taskHash configs st.completed config rest2 hpend
        (exec config (match st.inProgress with
          | some ip => if ip.hash = taskHash config.prompt then ip.sessionId else none
          | none => none)).2
      have hlen : (pendingOf taskHash configs st.completed).length ≤ n + 1 := h
      rw [hpend] at hdec hlen
      simp only [List.length_cons] at hdec hlen
      simp only [runLoop, hpend] at hw ⊢
      simp only [List.mem_cons, List.mem_append, List.mem_map] at hw
      have hsame : ∀ ip2 : Option InProgressTask,
          (runLoop taskHash exec configs configs.length
              (⟨st.completed, ip2⟩ : RunState)).state.completed
            = (runLoop taskHash exec configs n
                (⟨insertKey (taskHash config.prompt)
                    (exec config (match st.inProgress with
                      | some ip => if ip.hash = taskHash config.prompt then ip.sessionId else none
                      | none => none)).2 st.completed, none⟩ : RunState)).state.completed := by
        intro ip2
        rw [runLoop_completed_inProgress taskHash exec configs hExec configs.length
          st.completed ip2 st.inProgress]
        have hst : (⟨st.completed, st.inProgress⟩ : RunState) = st := rfl
        rw [hst, runLoop_fuel_eq taskHash exec configs configs.length (n + 1) st
          (hLfull st.completed) h]
        simp only [runLoop, hpend]
      rcases hw with rfl | ⟨⟨sid, _, rfl⟩⟩ | rfl | hw4
      · exact hsame _
      · exact hsame _
      · rw [runLoop_fuel_eq taskHash exec configs configs.length n _ (hLfull _)
          (by dsimp only; omega)]
      · exact ih _ (by dsimp only; omega) w hw4

/-- A hash handed to the executor is never already in the completed map the
loop started from. -/
theorem runLoop_executed_pending (taskHash : String → String)
    (exec : JobConfig → Option String → List String × JobResult)
    (configs : List JobConfig) :
    ∀ (fuel : Nat) (st : RunState) (h : String),
      h ∈ (runLoop taskHash exec configs fuel st).executed →
      lookupKey h st.completed = none := by
  intro fuel
  induction fuel with
  | zero => intro st h hh; cases hh
  | succ n ih =>
    intro st h hh
    cases hpend : pendingOf taskHash configs st.completed with
    | nil => simp [runLoop, hpend] at hh
    | cons config rest2 =>
      simp only [runLoop, hpend] at hh
      simp only [List.mem_cons] at hh
      rcases hh with rfl | hh2
      · have hmem0 : config ∈ pendingOf taskHash configs st.completed := by
          rw [hpend]; exact List.mem_cons_self _ _
        have hc := List.mem_filter.mp hmem0
        exact Option.isNone_iff_eq_none.mp hc.2
      · exact lookupKey_insertKey_none _ _ _ _ (ih _ h hh2)

/-- Every inProgress marker persisted by the loop points at a key absent
from the completed map persisted beside it. -/
theorem runLoop_writes_invariant (taskHash : String → String)
    (exec : JobConfig → Option String → List String × JobResult)
    (configs : List JobConfig) :
    ∀ (fuel : Nat) (st w : RunState) (ip : InProgressTask),
      w ∈ (runLoop taskHash exec configs fuel st).writes →
      w.inProgress = some ip →
      lookupKey ip.hash w.completed = none := by
  intro fuel
  induction fuel with
  | zero => intro st w ip hw; cases hw
  | succ n ih =>
    intro st w ip hw hip
    cases hpend : pendingOf taskHash configs st.completed with
    | nil => simp [runLoop, hpend] at hw
    | cons config rest2 =>
      have hmem0 : config ∈ pendingOf taskHash configs st.completed := by
        rw [hpend]; exact List.mem_cons_self _ _
      have hc := List.mem_filter.mp hmem0
      have hnone : lookupKey (taskHash config.prompt) st.completed = none :=
        Option.isNone_iff_eq_none.mp hc.2
      simp only [runLoop, hpend] at hw
      simp only [List.mem_cons, List.mem_append, List.mem_map] at hw
      rcases hw with rfl | ⟨⟨sid, _, rfl⟩⟩ | rfl | hw4
      · cases hip
        exact hnone
      · cases hip
        exact hnone
      · cases hip
      · exact ih _ w ip hw4 hip

/-- C3: every RunState the batch runner persists (at job start, on
session-id callback, and on job completion) satisfies: if inProgress is
present, its hash is not a key of the completed map. -/
theorem checkpoint_invariant (taskHash : String → String)
    (exec : JobConfig → Option String → List String × JobResult)
    (configs : List JobConfig) (st0 w : RunState) (ip : InProgressTask)
    (hw : w ∈ (runJobsWithState taskHash exec configs st0).2.writes)
    (hip : w.inProgress = some ip) :
    lookupKey ip.hash w.completed = none :=
  runLoop_writes_invariant taskHash exec configs configs.length st0 w ip hw hip

/-- C3 witness: the persisted marker for job "b", written beside the
completed entry for job "a", names a key absent from that map. -/
theorem checkpoint_invariant_witness :
    lookupKey "b" wWb.completed = none :=
  checkpoint_invariant hashW execW [cfgW1, cfgW2] freshRunState wWb
    ⟨"b", "b", none⟩ (by decide) (by decide)

/-- C1: interrupting the batch runner after any checkpoint write and
re-running with the same jobs and the saved checkpoint yields the same
final completed map as the uninterrupted run (for an executor whose outcome
does not depend on the resume hint), and no key already completed in the
saved checkpoint is ever executed again. -/
theorem idempotent_under_interruption (taskHash : String → String)
    (exec : JobConfig → Option String → List String × JobResult)
    (configs : List JobConfig)
    (hExec : ∀ c s, (exec c s).2 = (exec c none).2)
    (w : RunState)
    (hw : w ∈ (runJobsWithState taskHash exec configs freshRunState).2.writes) :
    (runJobsWithState taskHash exec configs w).2.state.completed
        = (runJobsWithState taskHash exec configs freshRunState).2.state.completed
    ∧ ∀ h ∈ (runJobsWithState taskHash exec configs w).2.executed,
        lookupKey h w.completed = none := by
  constructor
  · exact runLoop_writes_resume taskHash exec configs hExec configs.length freshRunState
      (List.length_filter_le _ _) w hw
  · intro h hh
    exact runLoop_executed_pending taskHash exec configs configs.length w h hh

/-- C1 witness: re-running from the first persisted checkpoint of a
two-job batch reproduces the uninterrupted final map, and the rerun only
executes keys absent from that checkpoint. -/
theorem idempotent_under_interruption_witness :
    (runJobsWithState hashW execW [cfgW1, cfgW2] wW).2.state.completed
        = (runJobsWithState hashW execW [cfgW1, cfgW2] freshRunState).2.state.completed
    ∧ lookupKey "a" wW.completed = none := by
  have h := idempotent_under_interruption hashW execW [cfgW1, cfgW2]
    (fun _ _ => rfl) wW (by decide)
  exact ⟨h.1, h.2 "a" (by decide)⟩

/-- For a fresh-style state (no inProgress marker) and pairwise distinct
content keys, the final completed map binds every config key to the outcome
of executing that config without a resume hint. -/
theorem runLoop_final_lookup (taskHash : String → String)
    (exec : JobConfig → Option String → List String × JobResult)
    (configs : List JobConfig)
    (hnodup : (configs.map (fun c => taskHash c.prompt)).Nodup) :
    ∀ (fuel : Nat) (m : List (String × JobResult)),
      (pendingOf taskHash configs m).length ≤ fuel →
      ∀ c ∈ configs,
        lookupKey (taskHash c.prompt)
            (runLoop taskHash exec configs fuel (⟨m, none⟩ : RunState)).state.completed
          = match lookupKey (taskHash c.prompt) m with
            | some v => some v
            | none => some (exec c none).2 := by
  intro fuel
  induction fuel with
  | zero =>
    intro m hle c hc
    have h0 : pendingOf taskHash configs m = [] :=
      List.length_eq_zero.mp (Nat.le_zero.mp hle)
    have := List.filter_eq_nil_iff.mp h0 c hc
    simp only [Bool.not_eq_true, Option.isNone_eq_false_iff, Option.isSome_iff_exists] at this
    obtain ⟨v, hv⟩ := this
    simp [runLoop, hv]
  | succ n ih =>
    intro m hle c hc
    cases hpend : pendingOf taskHash configs m with
    | nil =>
      have := List.filter_eq_nil_iff.mp hpend c hc
      simp only [Bool.not_eq_true, Option.isNone_eq_false_iff, Option.isSome_iff_exists] at this
      obtain ⟨v, hv⟩ := this
      simp [runLoop, hpend, hv]
    | cons config rest2 =>
      have hmem0 : config ∈ pendingOf taskHash configs m := by
        rw [hpend]; exact List.mem_cons_self _ _
      have hc0 := List.mem_filter.mp hmem0
      have hnone : lookupKey (taskHash config.prompt) m = none :=
        Option.isNone_iff_eq_none.mp hc0.2
      have hdec := pending_length_decrease taskHash configs m config rest2 hpend (exec config none).2
      rw [hpend] at hle hdec
      simp only [List.length_cons] at hle hdec
      simp only [runLoop, hpend]
      have hih := ih (insertKey (taskHash config.prompt) (exec config none).2 m)
        (by omega) c hc
      rw [hih, lookupKey_insertKey]
      by_cases hkey : taskHash c.prompt = taskHash config.prompt
      · have : c = config := List.inj_on_of_nodup_map hnodup hc hc0.1 hkey
        subst this
        rw [if_pos rfl, hnone]
      · rw [if_neg hkey]

theorem filterMap_eq_map_of_some {α β : Type} (l : List α) (f : α → Option β) (g : α → β)
    (h : ∀ c ∈ l, f c = some (g c)) : l.filterMap f = l.map g := by
  induction l with
  | nil => rfl
  | cons a t ih =>
    rw [List.filterMap_cons, h a (List.mem_cons_self a t), List.map_cons,
      ih (fun c hc => h c (List.mem_cons_of_mem a hc))]

/-- C2 (amended: pairwise distinct content keys): an uninterrupted run from
a fresh state returns one JobOutcome per job — hence exactly one per
distinct content key — in the jobs' original input order, each being the
outcome of executing that job. -/
theorem results_one_per_key (taskHash : String → String)
    (exec : JobConfig → Option String → List String × JobResult)
    (configs : List JobConfig)
    (hnodup : (configs.map (fun c => taskHash c.prompt)).Nodup) :
    (runJobsWithState taskHash exec configs freshRunState).1
      = configs.map (fun c => (exec c none).2) := by
  apply filterMap_eq_map_of_some
  intro c hc
  have := runLoop_final_lookup taskHash exec configs hnodup configs.length []
    (List.length_filter_le _ _) c hc
  simpa [lookupKey] using this

/-- C2 witness: two jobs with distinct keys yield exactly their two
outcomes in input order. -/
theorem results_one_per_key_witness :
    (runJobsWithState hashW execW [cfgW1, cfgW2] freshRunState).1
      = [⟨"a", .success, some "r", none, true, 0⟩, ⟨"b", .success, some "r", none, true, 0⟩] := by
  have h := results_one_per_key hashW execW [cfgW1, cfgW2] (by decide)
  exact h.trans (by decide)

/-- C2 counterexample: duplicating a job makes the returned list repeat the
shared outcome once per input entry — two JobOutcomes for one distinct
content key, refuting exactly-one-per-distinct-key. -/
theorem results_one_per_key_cex :
    (runJobsWithState hashW execW [cfgW1, cfgW1] freshRunState).1.length = 2
    ∧ (([cfgW1, cfgW1].map (fun c => hashW c.prompt)).dedup).length = 1 := by
  decide

end Overnight
